import Mathlib

/-!
Verification of the block-comment toggle command
(`src/vs/editor/contrib/comment/common/blockCommentCommand.ts`).

Lines of text are `List Char`; line numbers and columns are `Int`
(1-based, as in the editor), so that the JavaScript arithmetic of the
source — which freely goes negative — is represented without clamping
artifacts.  String indices are `Int` with `-1` as the "not found"
sentinel, exactly as in JavaScript.
-/

set_option autoImplicit false

namespace BlockComment

/-- A point in the text: 1-based line number and column
(`vs/editor/common/core/position`). -/
structure Position where
  lineNumber : Int
  column : Int
deriving DecidableEq, Repr

/-- A range in the text: 1-based inclusive start / exclusive end columns
(`vs/editor/common/core/range`). -/
structure Range where
  startLineNumber : Int
  startColumn : Int
  endLineNumber : Int
  endColumn : Int
deriving DecidableEq, Repr

/-- Modelled from the spec: `Range.isEmpty` of
`vs/editor/common/core/range` (not under `src/`); a range "may be
collapsed (start == end)", and a collapsed selection is one "whose start
and end positions are identical". -/
def Range.isEmpty (r : Range) : Bool :=
  r.startLineNumber == r.endLineNumber && r.startColumn == r.endColumn

/-- Modelled from the spec: `Selection` of
`vs/editor/common/core/selection` (not under `src/`); "a Range with a
notion of anchor/active end".  The constructor argument order follows
`new Selection(selectionStartLineNumber, selectionStartColumn,
positionLineNumber, positionColumn)`. -/
structure Selection where
  selectionStartLineNumber : Int
  selectionStartColumn : Int
  positionLineNumber : Int
  positionColumn : Int
deriving DecidableEq, Repr

/-- An edit operation: "a Range to replace and a replacement string
(empty string = delete, non-empty original range may itself be empty =
insert)". -/
structure Op where
  range : Range
  text : List Char
deriving DecidableEq, Repr

/-- Modelled from the spec: `EditOperation.delete` of
`vs/editor/common/core/editOperation` (not under `src/`) — an edit
operation whose replacement text is empty. -/
def EditOperation.delete (r : Range) : Op :=
  ⟨r, []⟩

/-- Modelled from the spec: `EditOperation.insert` of
`vs/editor/common/core/editOperation` (not under `src/`) — an edit
operation whose original range is collapsed at the given position. -/
def EditOperation.insert (p : Position) (text : List Char) : Op :=
  ⟨⟨p.lineNumber, p.column, p.lineNumber, p.column⟩, text⟩

/-- Modelled from the spec: `EditOperation.replace` of
`vs/editor/common/core/editOperation` (not under `src/`). -/
def EditOperation.replace (r : Range) (text : List Char) : Op :=
  ⟨r, text⟩

/-! ### JavaScript string primitives

`charCodeAt`, `indexOf` and `lastIndexOf` are ECMAScript built-ins used
by the source; they are modelled here over `List Char`. -/

/-- `haystack.charCodeAt(i)`: the character code at index `i`, or `none`
for an out-of-bounds index (JavaScript returns `NaN` there, which
compares unequal to every code). -/
def jsCharCodeAt (s : List Char) (i : Int) : Option Nat :=
  if i < 0 then none else (s.get? i.toNat).map Char.toNat

/-- `BlockCommentCommand._haystackHasNeedleAtOffset` (lines 25–40):
bounds-checked exact match of `needle` inside `haystack` at `offset`,
comparing character codes one by one. -/
def haystackHasNeedleAtOffset (haystack needle : List Char) (offset : Int) : Bool :=
  if offset < 0 then
    false
  else if offset + needle.length > haystack.length then
    false
  else
    (List.range needle.length).all fun i =>
      jsCharCodeAt haystack (offset + i) == jsCharCodeAt needle i

/-- `haystack.indexOf(needle, fromIndex)`: the smallest index `i` with
`max fromIndex 0 ≤ i` at which `needle` occurs, else `-1`. -/
def jsIndexOf (haystack needle : List Char) (fromIndex : Int) : Int :=
  let start : Nat := min (max fromIndex 0).toNat haystack.length
  match (List.range (haystack.length + 1)).find? (fun i =>
      decide (start ≤ i) && haystackHasNeedleAtOffset haystack needle i) with
  | some i => i
  | none => -1

/-- `haystack.lastIndexOf(needle, fromIndex)`: the largest index `i` with
`i ≤ min (max fromIndex 0) haystack.length` at which `needle` occurs,
else `-1`. -/
def jsLastIndexOf (haystack needle : List Char) (fromIndex : Int) : Int :=
  let start : Nat := min (max fromIndex 0).toNat haystack.length
  match ((List.range (haystack.length + 1)).filter (fun i =>
      decide (i ≤ start) && haystackHasNeedleAtOffset haystack needle i)).getLast? with
  | some i => i
  | none => -1

/-! ### The command core -/

/-- The part of `editorCommon.ITokenizedModel` the command reads: line
text lookup and language resolution (external interfaces of the spec). -/
structure TokenizedModel where
  getLineContent : Int → List Char
  getLanguageIdAtPosition : Int → Int → Nat

/-- `ICommentsConfiguration`: the per-language block-comment tokens,
"either may be absent".  An absent or empty token is falsy in the
source's guard. -/
structure CommentsConfiguration where
  blockCommentStartToken : Option (List Char)
  blockCommentEndToken : Option (List Char)

/-- Truthiness of an optional string, as JavaScript sees it:
`null`/missing and `""` are falsy. -/
def jsTruthy : Option (List Char) → Bool
  | none => false
  | some [] => false
  | some (_ :: _) => true

/-- `BlockCommentCommand._createRemoveBlockCommentOperations`
(lines 86–110): the remove-comment plan for the content range `r`. -/
def createRemoveBlockCommentOperations (r : Range) (startToken endToken : List Char) :
    List Op :=
  if !r.isEmpty then
    [EditOperation.delete ⟨r.startLineNumber, r.startColumn - startToken.length,
        r.startLineNumber, r.startColumn⟩,
     EditOperation.delete ⟨r.endLineNumber, r.endColumn,
        r.endLineNumber, r.endColumn + endToken.length⟩]
  else
    [EditOperation.delete ⟨r.startLineNumber, r.startColumn - startToken.length,
        r.endLineNumber, r.endColumn + endToken.length⟩]

/-- `BlockCommentCommand._createAddBlockCommentOperations`
(lines 112–130): the add-comment plan for the selection range `r`. -/
def createAddBlockCommentOperations (r : Range) (startToken endToken : List Char) :
    List Op :=
  if !r.isEmpty then
    [EditOperation.insert ⟨r.startLineNumber, r.startColumn⟩ (startToken ++ [' ']),
     EditOperation.insert ⟨r.endLineNumber, r.endColumn⟩ (' ' :: endToken)]
  else
    [EditOperation.replace ⟨r.startLineNumber, r.startColumn,
        r.endLineNumber, r.endColumn⟩ (startToken ++ [' ', ' '] ++ endToken)]

/-- The source's `this._usedEndToken = ops.length === 1 ? endToken : null`
(lines 60 and 78), shared by both add branches. -/
def usedEndTokenFor (ops : List Op) (endToken : List Char) : Option (List Char) :=
  if ops.length = 1 then some endToken else none

/-- `BlockCommentCommand._createOperationsForBlockComment` (lines 42–84)
as a pure function: returns the submitted operations together with the
value the mutable `_usedEndToken` field holds afterwards (`none` when
the field keeps its initial `null`). -/
def createOperationsForBlockComment (selection : Range) (startToken endToken : List Char)
    (model : TokenizedModel) : List Op × Option (List Char) :=
  let startLineNumber := selection.startLineNumber
  let startColumn := selection.startColumn
  let endLineNumber := selection.endLineNumber
  let endColumn := selection.endColumn
  let startTokenIndex := jsLastIndexOf (model.getLineContent startLineNumber) startToken
      (startColumn - 1 + startToken.length)
  let endTokenIndex := jsIndexOf (model.getLineContent endLineNumber) endToken
      (endColumn - 1 - endToken.length)
  if startTokenIndex ≠ -1 ∧ endTokenIndex ≠ -1 then
    let endTokenBeforeCursorIndex := jsLastIndexOf (model.getLineContent startLineNumber)
        endToken (startColumn - 1 + endToken.length)
    if endTokenBeforeCursorIndex > startTokenIndex + startToken.length - 1 then
      let ops := createAddBlockCommentOperations selection startToken endToken
      (ops, usedEndTokenFor ops endToken)
    else
      -- We have to adjust to possible inner white space
      let startToken2 :=
        if jsCharCodeAt (model.getLineContent startLineNumber)
            (startTokenIndex + startToken.length) = some 32 then
          startToken ++ [' ']
        else startToken
      let endToken2 :=
        if jsCharCodeAt (model.getLineContent endLineNumber) (endTokenIndex - 1) = some 32 then
          ' ' :: endToken
        else endToken
      let endTokenIndex2 :=
        if jsCharCodeAt (model.getLineContent endLineNumber) (endTokenIndex - 1) = some 32 then
          endTokenIndex - 1
        else endTokenIndex
      (createRemoveBlockCommentOperations
        ⟨startLineNumber, startTokenIndex + 1 + startToken2.length,
         endLineNumber, endTokenIndex2 + 1⟩ startToken2 endToken2, none)
  else
    let ops := createAddBlockCommentOperations selection startToken endToken
    (ops, usedEndTokenFor ops endToken)

/-- `BlockCommentCommand.getEditOperations` (lines 132–147) as a pure
function of the selection, the model and the registry lookup
(`LanguageConfigurationRegistry.getComments`): the submitted operations
and the `_usedEndToken` state.  `tokenizeIfCheap` is a performance hint
with no observable effect on the result. -/
def getEditOperations (selection : Range) (model : TokenizedModel)
    (getComments : Nat → Option CommentsConfiguration) : List Op × Option (List Char) :=
  let startLineNumber := selection.startLineNumber
  let startColumn := selection.startColumn
  let languageId := model.getLanguageIdAtPosition startLineNumber startColumn
  match getComments languageId with
  | none => ([], none)
  | some config =>
    if !jsTruthy config.blockCommentStartToken || !jsTruthy config.blockCommentEndToken then
      ([], none)
    else
      createOperationsForBlockComment selection
        (config.blockCommentStartToken.getD []) (config.blockCommentEndToken.getD []) model

/-- `BlockCommentCommand.computeCursorState` (lines 149–171) as a pure
function of the `_usedEndToken` state and the inverse edit operations'
ranges.  The source indexes `inverseEditOperations[0]` unconditionally
in the non-two case; it is never called with an empty list, for which
the model returns a dummy selection. -/
def computeCursorState (usedEndToken : Option (List Char))
    (inverseEditOperations : List Range) : Selection :=
  match inverseEditOperations with
  | [startTokenEditOperation, endTokenEditOperation] =>
    ⟨startTokenEditOperation.endLineNumber,
     startTokenEditOperation.endColumn,
     endTokenEditOperation.startLineNumber,
     endTokenEditOperation.startColumn⟩
  | srcOp :: _ =>
    let srcRange := srcOp
    let deltaColumn : Int :=
      if jsTruthy usedEndToken then -(usedEndToken.getD []).length - 1 else 0
    ⟨srcRange.endLineNumber, srcRange.endColumn + deltaColumn,
     srcRange.endLineNumber, srcRange.endColumn + deltaColumn⟩
  | [] => ⟨1, 1, 1, 1⟩

/-! ### Applying edit plans to text

A harness for stating the round-trip and frame properties: a text is a
list of lines; every operation the command produces has a single-line
range, and the builders emit operations in ascending position order, so
a batch is applied right-to-left (later operations first), which leaves
the earlier operations' coordinates valid. -/

/-- Replace columns `[startColumn, endColumn)` (1-based) of a line. -/
def spliceLine (s : List Char) (startColumn endColumn : Int) (text : List Char) :
    List Char :=
  s.take (startColumn - 1).toNat ++ text ++ s.drop (endColumn - 1).toNat

/-- Apply one single-line operation to a text. -/
def applyOpToText (text : List (List Char)) (op : Op) : List (List Char) :=
  let ln := (op.range.startLineNumber - 1).toNat
  text.set ln (spliceLine (text.getD ln []) op.range.startColumn op.range.endColumn op.text)

/-- Apply a batch of single-line operations, later operations first. -/
def applyOps (text : List (List Char)) (ops : List Op) : List (List Char) :=
  ops.foldr (fun op t => applyOpToText t op) text

/-- A `TokenizedModel` over a fixed list of lines (1-based line-number
access), used to instantiate the command on concrete texts. -/
def modelOfLines (lines : List (List Char)) : TokenizedModel :=
  ⟨fun n => lines.getD (n - 1).toNat [], fun _ _ => 0⟩

/-- The source's local `startTokenIndex` (line 51): the last occurrence
of `startToken` on the start line at or before
`startColumn - 1 + len(startToken)`. -/
def startTokenIndexOf (selection : Range) (startToken : List Char) (model : TokenizedModel) :
    Int :=
  jsLastIndexOf (model.getLineContent selection.startLineNumber) startToken
    (selection.startColumn - 1 + startToken.length)

/-- The source's local `endTokenIndex` (line 52): the first occurrence
of `endToken` on the end line at or after
`endColumn - 1 - len(endToken)`. -/
def endTokenIndexOf (selection : Range) (endToken : List Char) (model : TokenizedModel) :
    Int :=
  jsIndexOf (model.getLineContent selection.endLineNumber) endToken
    (selection.endColumn - 1 - endToken.length)

/-- The source's local `endTokenBeforeCursorIndex` (line 57): the last
occurrence of `endToken` on the start line at or before
`startColumn - 1 + len(endToken)`. -/
def endTokenBeforeCursorIndexOf (selection : Range) (endToken : List Char)
    (model : TokenizedModel) : Int :=
  jsLastIndexOf (model.getLineContent selection.startLineNumber) endToken
    (selection.startColumn - 1 + endToken.length)

/-- The whitespace-adjusted start token of the remove branch
(lines 64–66): widened by one trailing space when the character
immediately following the located start token is a space. -/
def adjustedStartToken (selection : Range) (startToken : List Char) (model : TokenizedModel) :
    List Char :=
  if jsCharCodeAt (model.getLineContent selection.startLineNumber)
      (startTokenIndexOf selection startToken model + startToken.length) = some 32 then
    startToken ++ [' ']
  else startToken

/-- The whitespace-adjusted end token of the remove branch
(lines 67–71): widened by one leading space when the character
immediately preceding the located end token is a space. -/
def adjustedEndToken (selection : Range) (endToken : List Char) (model : TokenizedModel) :
    List Char :=
  if jsCharCodeAt (model.getLineContent selection.endLineNumber)
      (endTokenIndexOf selection endToken model - 1) = some 32 then
    ' ' :: endToken
  else endToken

/-- The whitespace-adjusted located end-token offset of the remove
branch (line 70): shifted left by one exactly when the end token was
widened by a leading space. -/
def adjustedEndTokenIndex (selection : Range) (endToken : List Char) (model : TokenizedModel) :
    Int :=
  if jsCharCodeAt (model.getLineContent selection.endLineNumber)
      (endTokenIndexOf selection endToken model - 1) = some 32 then
    endTokenIndexOf selection endToken model - 1
  else endTokenIndexOf selection endToken model

/-! ### Helper lemmas about the edit-application harness -/

theorem set_getD_self {α : Type} (l : List α) (n : Nat) (d : α) (h : n < l.length) :
    l.set n (l.getD n d) = l := by
  apply List.ext_getElem?
  intro i
  by_cases hi : n = i
  · subst hi
    rw [List.getElem?_set_self h, List.getD_eq_getElem?_getD,
      List.getElem?_eq_getElem h]
    rfl
  · rw [List.getElem?_set_ne hi]

/-- Splicing with an empty replacement cancels a block of known position
and length inside a concatenation. -/
theorem spliceLine_cancel (P Z Q : List Char) :
    spliceLine (P ++ Z ++ Q) (P.length + 1) (P.length + 1 + Z.length) [] = P ++ Q := by
  unfold spliceLine
  have h1 : ((P.length : Int) + 1 - 1).toNat = P.length := by omega
  have h2 : ((P.length : Int) + 1 + Z.length - 1).toNat = P.length + Z.length := by omega
  rw [h1, h2, List.append_nil, List.append_assoc, List.take_left, List.drop_append,
    List.drop_left]

/-- Splicing at a collapsed column range inserts the replacement at that
position. -/
theorem spliceLine_insert (A Z : List Char) (c : Nat) :
    spliceLine A (c + 1) (c + 1) Z = A.take c ++ Z ++ A.drop c := by
  unfold spliceLine
  have h1 : ((c : Int) + 1 - 1).toNat = c := by omega
  rw [h1]

theorem int_toNat_succ (i : Nat) : (((i : Int) + 1) - 1).toNat = i := by omega

theorem getD_set_self {α : Type} (t : List α) (i : Nat) (v d : α) (h : i < t.length) :
    (t.set i v).getD i d = v := by
  rw [List.getD_eq_getElem?_getD, List.getElem?_set_self h, Option.getD_some]

theorem getD_set_ne {α : Type} (t : List α) (i k : Nat) (v d : α) (h : i ≠ k) :
    (t.set i v).getD k d = t.getD k d := by
  rw [List.getD_eq_getElem?_getD, List.getElem?_set_ne h, List.getD_eq_getElem?_getD]

theorem jsCharCodeAt_append_cons (P Q : List Char) (ch : Char) :
    jsCharCodeAt (P ++ ch :: Q) P.length = some ch.toNat := by
  unfold jsCharCodeAt
  rw [if_neg (by omega), Int.toNat_natCast, List.get?_eq_getElem?,
    List.getElem?_append_right (le_refl _)]
  simp

theorem getLineContent_modelOfLines (lines : List (List Char)) (i : Nat) :
    (modelOfLines lines).getLineContent ((i : Int) + 1) = lines.getD i [] := by
  simp only [modelOfLines]
  rw [int_toNat_succ]

theorem applyOpToText_eval (t : List (List Char)) (i : Nat) (cs ce : Int) (z : List Char) :
    applyOpToText t ⟨⟨(i : Int) + 1, cs, (i : Int) + 1, ce⟩, z⟩ =
      t.set i (spliceLine (t.getD i []) cs ce z) := by
  simp only [applyOpToText]
  rw [int_toNat_succ]

theorem applyOps_pair (t : List (List Char)) (a b : Op) :
    applyOps t [a, b] = applyOpToText (applyOpToText t b) a :=
  rfl

/-! ### Branch characterizations of `createOperationsForBlockComment` -/

theorem createOps_add_of_token_missing (selection : Range) (s e : List Char)
    (model : TokenizedModel)
    (h : startTokenIndexOf selection s model = -1 ∨ endTokenIndexOf selection e model = -1) :
    createOperationsForBlockComment selection s e model =
      (createAddBlockCommentOperations selection s e,
       usedEndTokenFor (createAddBlockCommentOperations selection s e) e) := by
  have hcond : ¬(startTokenIndexOf selection s model ≠ -1 ∧
      endTokenIndexOf selection e model ≠ -1) := by tauto
  simp only [createOperationsForBlockComment]
  rw [if_neg (by simpa [startTokenIndexOf, endTokenIndexOf] using hcond)]

theorem createOps_add_of_closed_before (selection : Range) (s e : List Char)
    (model : TokenizedModel)
    (h1 : startTokenIndexOf selection s model ≠ -1)
    (h2 : endTokenIndexOf selection e model ≠ -1)
    (h3 : endTokenBeforeCursorIndexOf selection e model >
      startTokenIndexOf selection s model + s.length - 1) :
    createOperationsForBlockComment selection s e model =
      (createAddBlockCommentOperations selection s e,
       usedEndTokenFor (createAddBlockCommentOperations selection s e) e) := by
  simp only [createOperationsForBlockComment]
  rw [if_pos ⟨by simpa [startTokenIndexOf] using h1, by simpa [endTokenIndexOf] using h2⟩,
    if_pos (by simpa [startTokenIndexOf, endTokenBeforeCursorIndexOf] using h3)]

theorem createOps_remove_of_commented (selection : Range) (s e : List Char)
    (model : TokenizedModel)
    (h1 : startTokenIndexOf selection s model ≠ -1)
    (h2 : endTokenIndexOf selection e model ≠ -1)
    (h3 : ¬(endTokenBeforeCursorIndexOf selection e model >
      startTokenIndexOf selection s model + s.length - 1)) :
    createOperationsForBlockComment selection s e model =
      (createRemoveBlockCommentOperations
        ⟨selection.startLineNumber,
         startTokenIndexOf selection s model + 1 + (adjustedStartToken selection s model).length,
         selection.endLineNumber,
         adjustedEndTokenIndex selection e model + 1⟩
        (adjustedStartToken selection s model) (adjustedEndToken selection e model),
       none) := by
  simp only [createOperationsForBlockComment, adjustedStartToken, adjustedEndToken,
    adjustedEndTokenIndex, startTokenIndexOf, endTokenIndexOf, endTokenBeforeCursorIndexOf]
  rw [if_pos ⟨by simpa [startTokenIndexOf] using h1, by simpa [endTokenIndexOf] using h2⟩,
    if_neg (by simpa [startTokenIndexOf, endTokenBeforeCursorIndexOf] using h3)]

/-! ### Theorems -/

/-- **C9.** For every haystack string, needle string, and integer
offset, the substring-at-offset matcher returns false when the offset is
negative or when `offset + len(needle) > len(haystack)`, and otherwise
returns true iff every character code of the needle equals the character
code of the haystack at the corresponding position; it never fails. -/
theorem claim_C9_matcher_contract (haystack needle : List Char) (offset : Int) :
    haystackHasNeedleAtOffset haystack needle offset = true ↔
      0 ≤ offset ∧ (offset + needle.length ≤ haystack.length ∧
        ∀ i : Nat, i < needle.length →
          jsCharCodeAt haystack (offset + i) = jsCharCodeAt needle i) := by
  unfold haystackHasNeedleAtOffset
  split
  · next hneg =>
    simp only [Bool.false_eq_true, false_iff]
    intro h
    omega
  · next hneg =>
    split
    · next hlen =>
      simp only [Bool.false_eq_true, false_iff]
      intro h
      omega
    · next hlen =>
      rw [List.all_eq_true]
      constructor
      · intro h
        refine ⟨by omega, by omega, ?_⟩
        intro i hi
        have := h i (List.mem_range.mpr hi)
        exact beq_iff_eq.mp (by simpa using this)
      · intro h i hi
        have := h.2.2 i (List.mem_range.mp hi)
        simpa using beq_iff_eq.mpr this

/-- **C4.** For every non-collapsed range the add-plan builder produces
exactly two operations — insert `startToken` followed by one space
immediately before the range start, and insert one space followed by
`endToken` immediately after the range end — and for every collapsed
range it produces exactly one operation replacing the empty range with
`startToken`, two spaces, and `endToken`, recording `endToken` as the
used end token. -/
theorem claim_C4_add_plan_shape (r : Range) (startToken endToken : List Char) :
    (r.isEmpty = false →
      createAddBlockCommentOperations r startToken endToken =
        [⟨⟨r.startLineNumber, r.startColumn, r.startLineNumber, r.startColumn⟩,
            startToken ++ [' ']⟩,
         ⟨⟨r.endLineNumber, r.endColumn, r.endLineNumber, r.endColumn⟩,
            ' ' :: endToken⟩]) ∧
    (r.isEmpty = true →
      createAddBlockCommentOperations r startToken endToken =
        [⟨⟨r.startLineNumber, r.startColumn, r.endLineNumber, r.endColumn⟩,
            startToken ++ [' ', ' '] ++ endToken⟩] ∧
      usedEndTokenFor (createAddBlockCommentOperations r startToken endToken) endToken =
        some endToken) := by
  constructor
  · intro h
    simp [createAddBlockCommentOperations, EditOperation.insert, h]
  · intro h
    simp [createAddBlockCommentOperations, EditOperation.replace, usedEndTokenFor, h]

/-- Witness for C4 at a collapsed range with the `/*`, `*/` tokens. -/
theorem claim_C4_add_plan_shape_witness :
    createAddBlockCommentOperations ⟨1, 2, 1, 2⟩ ['/', '*'] ['*', '/'] =
      [⟨⟨1, 2, 1, 2⟩, ['/', '*', ' ', ' ', '*', '/']⟩] ∧
    usedEndTokenFor (createAddBlockCommentOperations ⟨1, 2, 1, 2⟩ ['/', '*'] ['*', '/'])
        ['*', '/'] = some ['*', '/'] :=
  (claim_C4_add_plan_shape ⟨1, 2, 1, 2⟩ ['/', '*'] ['*', '/']).2 (by decide)

/-- **C5.** For every non-empty content range the remove-plan builder
produces exactly two delete operations — one deleting `len(startToken)`
characters immediately before the range start and one deleting
`len(endToken)` characters immediately after the range end — and for
every empty content range it produces exactly one contiguous delete
spanning from `len(startToken)` characters before the range start to
`len(endToken)` characters after the range end. -/
theorem claim_C5_remove_plan_shape (r : Range) (startToken endToken : List Char) :
    (r.isEmpty = false →
      createRemoveBlockCommentOperations r startToken endToken =
        [⟨⟨r.startLineNumber, r.startColumn - startToken.length,
            r.startLineNumber, r.startColumn⟩, []⟩,
         ⟨⟨r.endLineNumber, r.endColumn,
            r.endLineNumber, r.endColumn + endToken.length⟩, []⟩]) ∧
    (r.isEmpty = true →
      createRemoveBlockCommentOperations r startToken endToken =
        [⟨⟨r.startLineNumber, r.startColumn - startToken.length,
            r.endLineNumber, r.endColumn + endToken.length⟩, []⟩]) := by
  constructor
  · intro h
    simp [createRemoveBlockCommentOperations, EditOperation.delete, h]
  · intro h
    simp [createRemoveBlockCommentOperations, EditOperation.delete, h]

/-- Witness for C5 at a non-empty content range and at an empty one
(`/**/`-style), with the `/*`, `*/` tokens. -/
theorem claim_C5_remove_plan_shape_witness :
    createRemoveBlockCommentOperations ⟨1, 4, 1, 8⟩ ['/', '*'] ['*', '/'] =
      [⟨⟨1, 2, 1, 4⟩, []⟩, ⟨⟨1, 8, 1, 10⟩, []⟩] ∧
    createRemoveBlockCommentOperations ⟨1, 3, 1, 3⟩ ['/', '*'] ['*', '/'] =
      [⟨⟨1, 1, 1, 5⟩, []⟩] :=
  ⟨(claim_C5_remove_plan_shape ⟨1, 4, 1, 8⟩ ['/', '*'] ['*', '/']).1 (by decide),
   (claim_C5_remove_plan_shape ⟨1, 3, 1, 3⟩ ['/', '*'] ['*', '/']).2 (by decide)⟩

/-- **C7.** When exactly two inverse ranges are provided to cursor
reconstruction, the resulting selection spans from the end position of
the first range to the start position of the second range, reselecting
exactly the inner content between the two token edits. -/
theorem claim_C7_two_range_cursor (usedEndToken : Option (List Char)) (a b : Range) :
    computeCursorState usedEndToken [a, b] =
      ⟨a.endLineNumber, a.endColumn, b.startLineNumber, b.startColumn⟩ :=
  rfl

/-- Applying one operation whose original range is collapsed only
inserts: every line of the old text is a sublist of the corresponding
new line. -/
theorem sublist_applyOpToText (t : List (List Char)) (op : Op)
    (hop : op.range.isEmpty = true) (i : Nat) :
    List.Sublist (t.getD i []) ((applyOpToText t op).getD i []) := by
  have hcol : op.range.startColumn = op.range.endColumn := by
    unfold Range.isEmpty at hop
    simp only [Bool.and_eq_true, beq_iff_eq] at hop
    exact hop.2
  simp only [applyOpToText]
  by_cases hi : (op.range.startLineNumber - 1).toNat = i
  · rw [hi]
    by_cases hlt : i < t.length
    · have hset : ∀ v : List Char, (t.set i v).getD i [] = v := fun v => by
        rw [List.getD_eq_getElem?_getD, List.getElem?_set_self hlt, Option.getD_some]
      rw [hset]
      unfold spliceLine
      rw [← hcol]
      nth_rewrite 1 [← List.take_append_drop (op.range.startColumn - 1).toNat (t.getD i [])]
      exact List.Sublist.append (List.sublist_append_left _ _) (List.Sublist.refl _)
    · rw [List.set_eq_of_length_le (by omega)]
  · rw [List.getD_eq_getElem?_getD, List.getD_eq_getElem?_getD, List.getElem?_set_ne hi]

/-- Applying a batch of collapsed-range operations only inserts. -/
theorem sublist_applyOps (t : List (List Char)) (ops : List Op)
    (h : ∀ op ∈ ops, op.range.isEmpty = true) (i : Nat) :
    List.Sublist (t.getD i []) ((applyOps t ops).getD i []) := by
  induction ops generalizing t with
  | nil => exact List.Sublist.refl _
  | cons op rest ih =>
    have h1 := h op (List.mem_cons_self _ _)
    have h2 : ∀ o ∈ rest, o.range.isEmpty = true := fun o ho =>
      h o (List.mem_cons_of_mem _ ho)
    unfold applyOps at ih ⊢
    simp only [List.foldr_cons]
    exact (ih t h2).trans (sublist_applyOpToText _ op h1 i)

/-- **C10.** For every input range and token pair, every operation
produced by the add-plan builder has an empty (collapsed) original
range, so applying an add-plan never deletes or overwrites any existing
character of the text: every original line is a sublist of the
corresponding line of the result. -/
theorem claim_C10_add_plan_only_inserts (r : Range) (startToken endToken : List Char) :
    (∀ op ∈ createAddBlockCommentOperations r startToken endToken,
      op.range.isEmpty = true) ∧
    ∀ text : List (List Char), ∀ i : Nat,
      List.Sublist (text.getD i [])
        ((applyOps text (createAddBlockCommentOperations r startToken endToken)).getD i []) := by
  have hall : ∀ op ∈ createAddBlockCommentOperations r startToken endToken,
      op.range.isEmpty = true := by
    intro op hop
    unfold createAddBlockCommentOperations at hop
    split at hop
    · next h =>
      simp only [EditOperation.insert, List.mem_cons, List.mem_singleton,
        List.not_mem_nil, or_false] at hop
      rcases hop with h1 | h2
      · subst h1
        simp [Range.isEmpty]
      · subst h2
        simp [Range.isEmpty]
    · next h =>
      simp only [EditOperation.replace, List.mem_singleton] at hop
      subst hop
      simp only [Bool.not_eq_true', Bool.not_eq_false] at h
      simpa [Range.isEmpty] using h
  exact ⟨hall, fun text i => sublist_applyOps text _ hall i⟩

/-- Witness for C10: the concrete add plan around `"ab"` keeps the
original line as a sublist of the result. -/
theorem claim_C10_add_plan_only_inserts_witness :
    (⟨⟨1, 1, 1, 1⟩, ['/', '*', ' ']⟩ : Op).range.isEmpty = true ∧
    List.Sublist ("ab".toList)
      ((applyOps ["ab".toList]
        (createAddBlockCommentOperations ⟨1, 1, 1, 3⟩ ['/', '*'] ['*', '/'])).getD 0 []) := by
  have h := claim_C10_add_plan_only_inserts ⟨1, 1, 1, 3⟩ ['/', '*'] ['*', '/']
  exact ⟨h.1 _ (by decide), by simpa using h.2 ["ab".toList] 0⟩

/-- **C6.** When exactly one inverse range is provided to cursor
reconstruction, the resulting selection is collapsed at the end of that
range shifted left by `len(usedEndToken) + 1` columns when an end token
was recorded as used, and not shifted at all otherwise; in particular,
for a collapsed add with tokens `/*` and `*/` (whose single operation
inserts six characters) the cursor lands at
`insertionColumn + len("/*") + 1`. -/
theorem claim_C6_one_range_cursor (t : List Char) (r : Range) (l c : Int) :
    (t ≠ [] →
      computeCursorState (some t) [r] =
        ⟨r.endLineNumber, r.endColumn - t.length - 1,
         r.endLineNumber, r.endColumn - t.length - 1⟩) ∧
    computeCursorState none [r] =
      ⟨r.endLineNumber, r.endColumn, r.endLineNumber, r.endColumn⟩ ∧
    computeCursorState
        (usedEndTokenFor
          (createAddBlockCommentOperations ⟨l, c, l, c⟩ ['/', '*'] ['*', '/']) ['*', '/'])
        [⟨l, c, l, c + 6⟩] =
      ⟨l, c + 2 + 1, l, c + 2 + 1⟩ := by
  refine ⟨?_, ?_, ?_⟩
  · intro ht
    cases t with
    | nil => exact absurd rfl ht
    | cons ch t' =>
      have harith : r.endColumn + (-(((ch :: t').length : Int)) - 1) =
          r.endColumn - ((ch :: t').length : Int) - 1 := by ring
      calc computeCursorState (some (ch :: t')) [r]
          = ⟨r.endLineNumber, r.endColumn + (-(((ch :: t').length : Int)) - 1),
             r.endLineNumber, r.endColumn + (-(((ch :: t').length : Int)) - 1)⟩ := rfl
        _ = _ := by rw [harith]
  · simp [computeCursorState, jsTruthy]
  · have hemp : (⟨l, c, l, c⟩ : Range).isEmpty = true := by
      simp [Range.isEmpty]
    have hops : createAddBlockCommentOperations ⟨l, c, l, c⟩ ['/', '*'] ['*', '/'] =
        [⟨⟨l, c, l, c⟩, ['/', '*', ' ', ' ', '*', '/']⟩] := by
      unfold createAddBlockCommentOperations
      rw [hemp]
      simp [EditOperation.replace]
    rw [hops]
    have harith : c + 6 + (-(2 : Int) - 1) = c + 2 + 1 := by ring
    calc computeCursorState
          (usedEndTokenFor [⟨⟨l, c, l, c⟩, ['/', '*', ' ', ' ', '*', '/']⟩] ['*', '/'])
          [⟨l, c, l, c + 6⟩]
        = ⟨l, c + 6 + (-(2 : Int) - 1), l, c + 6 + (-(2 : Int) - 1)⟩ := rfl
      _ = _ := by rw [harith]

/-- Witness for C6 at the inverse range of a concrete collapsed add. -/
theorem claim_C6_one_range_cursor_witness :
    computeCursorState (some ['*', '/']) [⟨1, 3, 1, 9⟩] =
      ⟨1, 9 - (['*', '/'] : List Char).length - 1,
       1, 9 - (['*', '/'] : List Char).length - 1⟩ :=
  (claim_C6_one_range_cursor ['*', '/'] ⟨1, 3, 1, 9⟩ 1 1).1 (by decide)

/-- **C8.** For every selection, if the resolved language has no comment
configuration, or its block-comment start token or end token is empty or
absent, the edit-operation phase submits zero edit operations (a silent
no-op, not a failure). -/
theorem claim_C8_missing_config_noop (selection : Range) (model : TokenizedModel)
    (getComments : Nat → Option CommentsConfiguration)
    (h : getComments (model.getLanguageIdAtPosition selection.startLineNumber
          selection.startColumn) = none ∨
        ∃ cfg, getComments (model.getLanguageIdAtPosition selection.startLineNumber
            selection.startColumn) = some cfg ∧
          (jsTruthy cfg.blockCommentStartToken = false ∨
           jsTruthy cfg.blockCommentEndToken = false)) :
    getEditOperations selection model getComments = ([], none) := by
  simp only [getEditOperations]
  rcases h with h | ⟨cfg, hcfg, hfalsy⟩
  · rw [h]
  · rw [hcfg]
    rcases hfalsy with h1 | h1 <;> simp [h1]

/-- Witness for C8: a language with a start token but no end token
yields zero operations. -/
theorem claim_C8_missing_config_noop_witness :
    getEditOperations ⟨1, 1, 1, 4⟩ (modelOfLines ["abc".toList])
      (fun _ => some ⟨some ['/', '*'], none⟩) = ([], none) :=
  claim_C8_missing_config_noop ⟨1, 1, 1, 4⟩ (modelOfLines ["abc".toList])
    (fun _ => some ⟨some ['/', '*'], none⟩)
    (Or.inr ⟨⟨some ['/', '*'], none⟩, rfl, Or.inr rfl⟩)

/-- **C2.** When both a startToken occurrence (last occurrence on the
start line at or before `startColumn − 1 + len(startToken)`) and an
endToken occurrence (first occurrence on the end line at or after
`endColumn − 1 − len(endToken)`) are found, the selection is classified
not-commented (add-plan) exactly when the last occurrence of endToken on
the start line, searched with the same bias as step 1, lies strictly
after the startToken found in step 1; otherwise it is classified
commented (remove-plan).  If either token is not found, an add-plan is
produced.  In particular, for start line `"a /* b"` with the selection
beginning right after `/* ` and end line `"c */ d"`, classification
yields a remove-plan. -/
theorem claim_C2_classification (selection : Range) (s e : List Char)
    (model : TokenizedModel) :
    ((startTokenIndexOf selection s model = -1 ∨ endTokenIndexOf selection e model = -1) →
      createOperationsForBlockComment selection s e model =
        (createAddBlockCommentOperations selection s e,
         usedEndTokenFor (createAddBlockCommentOperations selection s e) e)) ∧
    (startTokenIndexOf selection s model ≠ -1 → endTokenIndexOf selection e model ≠ -1 →
      (endTokenBeforeCursorIndexOf selection e model >
          startTokenIndexOf selection s model + s.length - 1 →
        createOperationsForBlockComment selection s e model =
          (createAddBlockCommentOperations selection s e,
           usedEndTokenFor (createAddBlockCommentOperations selection s e) e)) ∧
      (endTokenBeforeCursorIndexOf selection e model ≤
          startTokenIndexOf selection s model + s.length - 1 →
        (createOperationsForBlockComment selection s e model).2 = none ∧
        ∃ (s2 e2 : List Char) (k : Int),
          (createOperationsForBlockComment selection s e model).1 =
            createRemoveBlockCommentOperations
              ⟨selection.startLineNumber,
               startTokenIndexOf selection s model + 1 + s2.length,
               selection.endLineNumber, k + 1⟩ s2 e2)) ∧
    createOperationsForBlockComment ⟨1, 6, 2, 2⟩ ['/', '*'] ['*', '/']
        (modelOfLines ["a /* b".toList, "c */ d".toList]) =
      ([⟨⟨1, 3, 1, 6⟩, []⟩, ⟨⟨2, 2, 2, 5⟩, []⟩], none) := by
  refine ⟨fun h => createOps_add_of_token_missing selection s e model h,
    fun h1 h2 => ⟨fun h3 => createOps_add_of_closed_before selection s e model h1 h2 h3,
      fun h3 => ?_⟩, by decide⟩
  have hrem := createOps_remove_of_commented selection s e model h1 h2 (not_lt.mpr h3)
  refine ⟨by rw [hrem], adjustedStartToken selection s model, adjustedEndToken selection e model,
    adjustedEndTokenIndex selection e model, by rw [hrem]⟩

/-- Witness for C2 at the `"a /* b"` / `"c */ d"` example: both tokens
are found, no end token closes before the selection, and the command
takes the remove branch (leaving `_usedEndToken` null). -/
theorem claim_C2_classification_witness :
    (createOperationsForBlockComment ⟨1, 6, 2, 2⟩ ['/', '*'] ['*', '/']
      (modelOfLines ["a /* b".toList, "c */ d".toList])).2 = none :=
  (((claim_C2_classification ⟨1, 6, 2, 2⟩ ['/', '*'] ['*', '/']
      (modelOfLines ["a /* b".toList, "c */ d".toList])).2.1
    (by decide) (by decide)).2 (by decide)).1

/-- **C3.** For a remove-plan, if the character immediately following
the located startToken is a space the removal of the start token is
widened by that one trailing space, and if the character immediately
preceding the located endToken is a space the removal of the end token
is widened by that one leading space with the located end-token offset
shifted left by one; in particular removing `"/* text */"` leaves
exactly `"text"`. -/
theorem claim_C3_whitespace_adjustment (selection : Range) (s e : List Char)
    (model : TokenizedModel)
    (h1 : startTokenIndexOf selection s model ≠ -1)
    (h2 : endTokenIndexOf selection e model ≠ -1)
    (h3 : endTokenBeforeCursorIndexOf selection e model ≤
      startTokenIndexOf selection s model + s.length - 1) :
    (createOperationsForBlockComment selection s e model).1 =
      createRemoveBlockCommentOperations
        ⟨selection.startLineNumber,
         startTokenIndexOf selection s model + 1 +
           (if jsCharCodeAt (model.getLineContent selection.startLineNumber)
                (startTokenIndexOf selection s model + s.length) = some 32 then
              s ++ [' ']
            else s).length,
         selection.endLineNumber,
         (if jsCharCodeAt (model.getLineContent selection.endLineNumber)
              (endTokenIndexOf selection e model - 1) = some 32 then
            endTokenIndexOf selection e model - 1
          else endTokenIndexOf selection e model) + 1⟩
        (if jsCharCodeAt (model.getLineContent selection.startLineNumber)
             (startTokenIndexOf selection s model + s.length) = some 32 then
           s ++ [' ']
         else s)
        (if jsCharCodeAt (model.getLineContent selection.endLineNumber)
             (endTokenIndexOf selection e model - 1) = some 32 then
           ' ' :: e
         else e) ∧
    applyOps ["/* text */".toList]
        ((createOperationsForBlockComment ⟨1, 4, 1, 8⟩ ['/', '*'] ['*', '/']
          (modelOfLines ["/* text */".toList])).1) = ["text".toList] := by
  refine ⟨?_, by decide⟩
  rw [createOps_remove_of_commented selection s e model h1 h2 (not_lt.mpr h3)]
  simp only [adjustedStartToken, adjustedEndToken, adjustedEndTokenIndex]

/-- Witness for C3: the `"/* text */"` removal leaves exactly `"text"`,
with one adjacent space deleted on each side along with each token. -/
theorem claim_C3_whitespace_adjustment_witness :
    applyOps ["/* text */".toList]
        ((createOperationsForBlockComment ⟨1, 4, 1, 8⟩ ['/', '*'] ['*', '/']
          (modelOfLines ["/* text */".toList])).1) = ["text".toList] :=
  (claim_C3_whitespace_adjustment ⟨1, 4, 1, 8⟩ ['/', '*'] ['*', '/']
    (modelOfLines ["/* text */".toList]) (by decide) (by decide) (by decide)).2

/-- **C1, counterexample.**  The add-then-remove round trip fails as
stated: for the one-line text `"/*x"`, the full non-collapsed selection,
and the token pair `/*`, `*/`, the add plan yields `"/* /*x */"`; on
that result (with the selection reselecting the inner content, as cursor
reconstruction produces) the locator classifies the selection as
commented — but it locates the `/*` *inside* the original content, so
the produced remove plan (whose operations are pure deletions) yields
`"/* x"`, not the original `"/*x"`. -/
theorem claim_C1_roundTrip_counterexample :
    (⟨1, 1, 1, 4⟩ : Range).isEmpty = false ∧
    applyOps ["/*x".toList]
        (createAddBlockCommentOperations ⟨1, 1, 1, 4⟩ ['/', '*'] ['*', '/']) =
      ["/* /*x */".toList] ∧
    (createOperationsForBlockComment ⟨1, 4, 1, 7⟩ ['/', '*'] ['*', '/']
        (modelOfLines ["/* /*x */".toList])).2 = none ∧
    (∀ op ∈ (createOperationsForBlockComment ⟨1, 4, 1, 7⟩ ['/', '*'] ['*', '/']
        (modelOfLines ["/* /*x */".toList])).1, op.text = []) ∧
    applyOps ["/* /*x */".toList]
        ((createOperationsForBlockComment ⟨1, 4, 1, 7⟩ ['/', '*'] ['*', '/']
          (modelOfLines ["/* /*x */".toList])).1) ≠ ["/*x".toList] := by
  decide

/-- Core of the amended round trip for a single-line selection: on the
edited text, when the locator finds the inserted tokens and the
closed-before-cursor check does not fire, the produced remove plan
restores the original text. -/
theorem removePlan_restores_single_line
    (lines : List (List Char)) (i c1 c2 : Nat) (s e : List Char)
    (hi : i < lines.length)
    (h12 : c1 < c2) (hc2 : c2 ≤ (lines.getD i []).length)
    (text2 : List (List Char))
    (ht2 : text2 = applyOps lines (createAddBlockCommentOperations
      ⟨(i : Int) + 1, (c1 : Int) + 1, (i : Int) + 1, (c2 : Int) + 1⟩ s e))
    (sel2 : Range)
    (hsl : sel2.startLineNumber = (i : Int) + 1)
    (hel : sel2.endLineNumber = (i : Int) + 1)
    (hF1 : startTokenIndexOf sel2 s (modelOfLines text2) = (c1 : Int))
    (hF2 : endTokenIndexOf sel2 e (modelOfLines text2) = ((c2 + s.length + 2 : Nat) : Int))
    (hF3 : endTokenBeforeCursorIndexOf sel2 e (modelOfLines text2) ≤
      (c1 : Int) + s.length - 1) :
    applyOps text2 ((createOperationsForBlockComment sel2 s e (modelOfLines text2)).1) =
      lines := by
  have hc1 : c1 ≤ (lines.getD i []).length := le_trans (le_of_lt h12) hc2
  have hlen1 : ((lines.getD i []).take c1).length = c1 := by rw [List.length_take]; omega
  have hlen2 : ((lines.getD i []).take c2).length = c2 := by rw [List.length_take]; omega
  have hselE : (⟨(i : Int) + 1, (c1 : Int) + 1, (i : Int) + 1,
      (c2 : Int) + 1⟩ : Range).isEmpty = false := by
    have hb : ((c1 : Int) + 1 == (c2 : Int) + 1) = false := beq_eq_false_iff_ne.mpr (by omega)
    simp [Range.isEmpty, hb]
  have haddops : createAddBlockCommentOperations
      ⟨(i : Int) + 1, (c1 : Int) + 1, (i : Int) + 1, (c2 : Int) + 1⟩ s e =
      [⟨⟨(i : Int) + 1, (c1 : Int) + 1, (i : Int) + 1, (c1 : Int) + 1⟩, s ++ [' ']⟩,
       ⟨⟨(i : Int) + 1, (c2 : Int) + 1, (i : Int) + 1, (c2 : Int) + 1⟩, ' ' :: e⟩] := by
    unfold createAddBlockCommentOperations
    rw [hselE]
    rfl
  have htk : ((lines.getD i []).take c2 ++ (' ' :: e) ++ (lines.getD i []).drop c2).take c1 =
      (lines.getD i []).take c1 := by
    rw [List.take_append_of_le_length (by rw [List.length_append, hlen2]; omega),
      List.take_append_of_le_length (by rw [hlen2]; omega),
      List.take_take, inf_eq_left.mpr (le_of_lt h12)]
  have hdp : ((lines.getD i []).take c2 ++ (' ' :: e) ++ (lines.getD i []).drop c2).drop c1 =
      ((lines.getD i []).take c2).drop c1 ++ ' ' :: (e ++ (lines.getD i []).drop c2) := by
    rw [List.append_assoc, List.drop_append_of_le_length (by rw [hlen2]; omega)]
    simp only [List.append_assoc, List.cons_append, List.singleton_append, List.nil_append]
  have ht2' : text2 = lines.set i
      ((lines.getD i []).take c1 ++ (s ++ ' ' :: (((lines.getD i []).take c2).drop c1 ++
        ' ' :: (e ++ (lines.getD i []).drop c2)))) := by
    rw [ht2, haddops, applyOps_pair, applyOpToText_eval, applyOpToText_eval,
      getD_set_self lines i _ [] hi, List.set_set, spliceLine_insert, spliceLine_insert,
      htk, hdp]
    simp only [List.append_assoc, List.cons_append, List.singleton_append, List.nil_append]
  have hlen_t2 : text2.length = lines.length := by rw [ht2', List.length_set]
  have hline2 : text2.getD i [] =
      (lines.getD i []).take c1 ++ (s ++ ' ' :: (((lines.getD i []).take c2).drop c1 ++
        ' ' :: (e ++ (lines.getD i []).drop c2))) := by
    rw [ht2', getD_set_self lines i _ [] hi]
  have hmS : (modelOfLines text2).getLineContent sel2.startLineNumber = text2.getD i [] := by
    rw [hsl, getLineContent_modelOfLines]
  have hmE : (modelOfLines text2).getLineContent sel2.endLineNumber = text2.getD i [] := by
    rw [hel, getLineContent_modelOfLines]
  -- the character following the located start token is the inserted space
  have hcharS : jsCharCodeAt (text2.getD i [])
      (startTokenIndexOf sel2 s (modelOfLines text2) + (s.length : Int)) = some 32 := by
    rw [hF1]
    have hre : text2.getD i [] =
        ((lines.getD i []).take c1 ++ s) ++ ' ' :: (((lines.getD i []).take c2).drop c1 ++
          ' ' :: (e ++ (lines.getD i []).drop c2)) := by
      rw [hline2]
      simp only [List.append_assoc, List.cons_append, List.singleton_append, List.nil_append]
    have hidx : (c1 : Int) + (s.length : Int) =
        ((((lines.getD i []).take c1 ++ s).length : Nat) : Int) := by
      rw [List.length_append, hlen1]; push_cast; ring
    rw [hre, hidx]
    exact jsCharCodeAt_append_cons _ _ ' '
  -- the character preceding the located end token is the inserted space
  have hP2len : ((lines.getD i []).take c1 ++ (s ++ [' ']) ++
      ((lines.getD i []).take c2).drop c1).length = c2 + s.length + 1 := by
    simp only [List.length_append, List.length_take, List.length_drop,
      List.length_singleton]
    omega
  have hP2 : text2.getD i [] =
      ((lines.getD i []).take c1 ++ (s ++ [' ']) ++ ((lines.getD i []).take c2).drop c1) ++
        ' ' :: (e ++ (lines.getD i []).drop c2) := by
    rw [hline2]
    simp only [List.append_assoc, List.cons_append, List.singleton_append, List.nil_append]
  have hcharE : jsCharCodeAt (text2.getD i [])
      (endTokenIndexOf sel2 e (modelOfLines text2) - 1) = some 32 := by
    rw [hF2]
    have hidx : ((c2 + s.length + 2 : Nat) : Int) - 1 =
        ((((lines.getD i []).take c1 ++ (s ++ [' ']) ++
          ((lines.getD i []).take c2).drop c1).length : Nat) : Int) := by
      rw [hP2len]; push_cast; ring
    rw [hidx, hP2]
    exact jsCharCodeAt_append_cons _ _ ' '
  -- adjusted tokens
  have hcondS : jsCharCodeAt ((modelOfLines text2).getLineContent sel2.startLineNumber)
      (startTokenIndexOf sel2 s (modelOfLines text2) + (s.length : Int)) = some 32 := by
    rw [hmS]; exact hcharS
  have hcondE : jsCharCodeAt ((modelOfLines text2).getLineContent sel2.endLineNumber)
      (endTokenIndexOf sel2 e (modelOfLines text2) - 1) = some 32 := by
    rw [hmE]; exact hcharE
  have hadjS : adjustedStartToken sel2 s (modelOfLines text2) = s ++ [' '] := by
    unfold adjustedStartToken
    rw [if_pos hcondS]
  have hadjE : adjustedEndToken sel2 e (modelOfLines text2) = ' ' :: e := by
    unfold adjustedEndToken
    rw [if_pos hcondE]
  have hadjEI : adjustedEndTokenIndex sel2 e (modelOfLines text2) =
      ((c2 + s.length + 2 : Nat) : Int) - 1 := by
    unfold adjustedEndTokenIndex
    rw [if_pos hcondE, hF2]
  -- the remove branch fires
  have h1 : startTokenIndexOf sel2 s (modelOfLines text2) ≠ -1 := by rw [hF1]; omega
  have h2 : endTokenIndexOf sel2 e (modelOfLines text2) ≠ -1 := by rw [hF2]; omega
  have h3 : ¬(endTokenBeforeCursorIndexOf sel2 e (modelOfLines text2) >
      startTokenIndexOf sel2 s (modelOfLines text2) + s.length - 1) := by
    rw [hF1]; exact not_lt.mpr hF3
  have hplan : (createOperationsForBlockComment sel2 s e (modelOfLines text2)).1 =
      createRemoveBlockCommentOperations
        ⟨(i : Int) + 1, (c1 : Int) + 1 + ((s ++ [' ']).length : Int),
         (i : Int) + 1, (((c2 + s.length + 2 : Nat) : Int) - 1) + 1⟩
        (s ++ [' ']) (' ' :: e) := by
    rw [createOps_remove_of_commented sel2 s e (modelOfLines text2) h1 h2 h3,
      hadjS, hadjE, hadjEI, hF1, hsl, hel]
  have hrne : (⟨(i : Int) + 1, (c1 : Int) + 1 + ((s ++ [' ']).length : Int),
      (i : Int) + 1, (((c2 + s.length + 2 : Nat) : Int) - 1) + 1⟩ : Range).isEmpty = false := by
    have hb : ((c1 : Int) + 1 + ((s ++ [' ']).length : Int) ==
        (((c2 + s.length + 2 : Nat) : Int) - 1) + 1) = false := by
      rw [beq_eq_false_iff_ne]
      rw [List.length_append, List.length_singleton]
      push_cast
      omega
    simp only [Range.isEmpty]
    rw [hb, Bool.and_false]
  have hremops : createRemoveBlockCommentOperations
      ⟨(i : Int) + 1, (c1 : Int) + 1 + ((s ++ [' ']).length : Int),
       (i : Int) + 1, (((c2 + s.length + 2 : Nat) : Int) - 1) + 1⟩
      (s ++ [' ']) (' ' :: e) =
      [⟨⟨(i : Int) + 1,
          ((c1 : Int) + 1 + ((s ++ [' ']).length : Int)) - ((s ++ [' ']).length : Int),
          (i : Int) + 1, (c1 : Int) + 1 + ((s ++ [' ']).length : Int)⟩, []⟩,
       ⟨⟨(i : Int) + 1, (((c2 + s.length + 2 : Nat) : Int) - 1) + 1,
          (i : Int) + 1,
          ((((c2 + s.length + 2 : Nat) : Int) - 1) + 1) + ((' ' :: e).length : Int)⟩, []⟩] := by
    unfold createRemoveBlockCommentOperations
    rw [hrne]
    rfl
  rw [hplan, hremops, applyOps_pair, applyOpToText_eval, applyOpToText_eval]
  -- cancel the end-token deletion
  have hcolB : (((c2 + s.length + 2 : Nat) : Int) - 1) + 1 =
      ((((lines.getD i []).take c1 ++ (s ++ [' ']) ++
        ((lines.getD i []).take c2).drop c1).length : Nat) : Int) + 1 := by
    rw [hP2len]; push_cast; ring
  have hP2b : text2.getD i [] =
      ((lines.getD i []).take c1 ++ (s ++ [' ']) ++ ((lines.getD i []).take c2).drop c1) ++
        (' ' :: e) ++ (lines.getD i []).drop c2 := by
    rw [hline2]
    simp only [List.append_assoc, List.cons_append, List.singleton_append, List.nil_append]
  rw [hP2b, hcolB, spliceLine_cancel]
  -- cancel the start-token deletion
  rw [getD_set_self text2 i _ [] (by omega)]
  have hgroup : ((lines.getD i []).take c1 ++ (s ++ [' ']) ++
      ((lines.getD i []).take c2).drop c1) ++ (lines.getD i []).drop c2 =
      (lines.getD i []).take c1 ++ (s ++ [' ']) ++
        (((lines.getD i []).take c2).drop c1 ++ (lines.getD i []).drop c2) := by
    simp only [List.append_assoc]
  have hcolA1 : ((c1 : Int) + 1 + ((s ++ [' ']).length : Int)) -
      ((s ++ [' ']).length : Int) =
      ((((lines.getD i []).take c1).length : Nat) : Int) + 1 := by
    rw [hlen1]; ring
  have hcolA2 : (c1 : Int) + 1 + ((s ++ [' ']).length : Int) =
      ((((lines.getD i []).take c1).length : Nat) : Int) + 1 + ((s ++ [' ']).length : Int) := by
    rw [hlen1]
  rw [hgroup, hcolA1, hcolA2, spliceLine_cancel]
  -- the spliced line is the original line
  have hfinal : (lines.getD i []).take c1 ++ (((lines.getD i []).take c2).drop c1 ++
      (lines.getD i []).drop c2) = lines.getD i [] := by
    rw [← List.append_assoc]
    have hq : (lines.getD i []).take c1 = ((lines.getD i []).take c2).take c1 := by
      rw [List.take_take, inf_eq_left.mpr (le_of_lt h12)]
    rw [hq, List.take_append_drop, List.take_append_drop]
  rw [List.set_set, ht2', List.set_set, hfinal]
  exact set_getD_self lines i _ hi

/-- Core of the amended round trip for a selection spanning two
different lines. -/
theorem removePlan_restores_multi_line
    (lines : List (List Char)) (i j c1 c2 : Nat) (s e : List Char)
    (hij : i < j) (hj : j < lines.length)
    (hc1 : c1 ≤ (lines.getD i []).length) (hc2 : c2 ≤ (lines.getD j []).length)
    (text2 : List (List Char))
    (ht2 : text2 = applyOps lines (createAddBlockCommentOperations
      ⟨(i : Int) + 1, (c1 : Int) + 1, (j : Int) + 1, (c2 : Int) + 1⟩ s e))
    (sel2 : Range)
    (hsl : sel2.startLineNumber = (i : Int) + 1)
    (hel : sel2.endLineNumber = (j : Int) + 1)
    (hF1 : startTokenIndexOf sel2 s (modelOfLines text2) = (c1 : Int))
    (hF2 : endTokenIndexOf sel2 e (modelOfLines text2) = ((c2 + 1 : Nat) : Int))
    (hF3 : endTokenBeforeCursorIndexOf sel2 e (modelOfLines text2) ≤
      (c1 : Int) + s.length - 1) :
    applyOps text2 ((createOperationsForBlockComment sel2 s e (modelOfLines text2)).1) =
      lines := by
  have hi : i < lines.length := lt_trans hij hj
  have hlenI1 : ((lines.getD i []).take c1).length = c1 := by rw [List.length_take]; omega
  have hlenJ2 : ((lines.getD j []).take c2).length = c2 := by rw [List.length_take]; omega
  have hselE : (⟨(i : Int) + 1, (c1 : Int) + 1, (j : Int) + 1,
      (c2 : Int) + 1⟩ : Range).isEmpty = false := by
    have hb : ((i : Int) + 1 == (j : Int) + 1) = false := beq_eq_false_iff_ne.mpr (by omega)
    simp [Range.isEmpty, hb]
  have haddops : createAddBlockCommentOperations
      ⟨(i : Int) + 1, (c1 : Int) + 1, (j : Int) + 1, (c2 : Int) + 1⟩ s e =
      [⟨⟨(i : Int) + 1, (c1 : Int) + 1, (i : Int) + 1, (c1 : Int) + 1⟩, s ++ [' ']⟩,
       ⟨⟨(j : Int) + 1, (c2 : Int) + 1, (j : Int) + 1, (c2 : Int) + 1⟩, ' ' :: e⟩] := by
    unfold createAddBlockCommentOperations
    rw [hselE]
    rfl
  have ht2' : text2 =
      (lines.set j ((lines.getD j []).take c2 ++ (' ' :: e) ++ (lines.getD j []).drop c2)).set i
        ((lines.getD i []).take c1 ++ (s ++ [' ']) ++ (lines.getD i []).drop c1) := by
    rw [ht2, haddops, applyOps_pair, applyOpToText_eval, applyOpToText_eval,
      getD_set_ne lines j i _ [] (by omega), spliceLine_insert, spliceLine_insert]
  have hlen_t2 : text2.length = lines.length := by
    rw [ht2', List.length_set, List.length_set]
  have hlineI : text2.getD i [] =
      (lines.getD i []).take c1 ++ (s ++ [' ']) ++ (lines.getD i []).drop c1 := by
    rw [ht2', getD_set_self _ i _ [] (by rw [List.length_set]; omega)]
  have hlineJ : text2.getD j [] =
      (lines.getD j []).take c2 ++ (' ' :: e) ++ (lines.getD j []).drop c2 := by
    rw [ht2', getD_set_ne _ i j _ [] (by omega), getD_set_self _ j _ [] hj]
  have hmS : (modelOfLines text2).getLineContent sel2.startLineNumber = text2.getD i [] := by
    rw [hsl, getLineContent_modelOfLines]
  have hmE : (modelOfLines text2).getLineContent sel2.endLineNumber = text2.getD j [] := by
    rw [hel, getLineContent_modelOfLines]
  have hcharS : jsCharCodeAt (text2.getD i [])
      (startTokenIndexOf sel2 s (modelOfLines text2) + (s.length : Int)) = some 32 := by
    rw [hF1]
    have hre : text2.getD i [] =
        ((lines.getD i []).take c1 ++ s) ++ ' ' :: (lines.getD i []).drop c1 := by
      rw [hlineI]
      simp only [List.append_assoc, List.cons_append, List.singleton_append, List.nil_append]
    have hidx : (c1 : Int) + (s.length : Int) =
        ((((lines.getD i []).take c1 ++ s).length : Nat) : Int) := by
      rw [List.length_append, hlenI1]; push_cast; ring
    rw [hre, hidx]
    exact jsCharCodeAt_append_cons _ _ ' '
  have hcharE : jsCharCodeAt (text2.getD j [])
      (endTokenIndexOf sel2 e (modelOfLines text2) - 1) = some 32 := by
    rw [hF2]
    have hre : text2.getD j [] =
        (lines.getD j []).take c2 ++ ' ' :: (e ++ (lines.getD j []).drop c2) := by
      rw [hlineJ]
      simp only [List.append_assoc, List.cons_append, List.singleton_append, List.nil_append]
    have hidx : ((c2 + 1 : Nat) : Int) - 1 =
        ((((lines.getD j []).take c2).length : Nat) : Int) := by
      rw [hlenJ2]; push_cast; ring
    rw [hre, hidx]
    exact jsCharCodeAt_append_cons _ _ ' '
  have hcondS : jsCharCodeAt ((modelOfLines text2).getLineContent sel2.startLineNumber)
      (startTokenIndexOf sel2 s (modelOfLines text2) + (s.length : Int)) = some 32 := by
    rw [hmS]; exact hcharS
  have hcondE : jsCharCodeAt ((modelOfLines text2).getLineContent sel2.endLineNumber)
      (endTokenIndexOf sel2 e (modelOfLines text2) - 1) = some 32 := by
    rw [hmE]; exact hcharE
  have hadjS : adjustedStartToken sel2 s (modelOfLines text2) = s ++ [' '] := by
    unfold adjustedStartToken
    rw [if_pos hcondS]
  have hadjE : adjustedEndToken sel2 e (modelOfLines text2) = ' ' :: e := by
    unfold adjustedEndToken
    rw [if_pos hcondE]
  have hadjEI : adjustedEndTokenIndex sel2 e (modelOfLines text2) =
      ((c2 + 1 : Nat) : Int) - 1 := by
    unfold adjustedEndTokenIndex
    rw [if_pos hcondE, hF2]
  have h1 : startTokenIndexOf sel2 s (modelOfLines text2) ≠ -1 := by rw [hF1]; omega
  have h2 : endTokenIndexOf sel2 e (modelOfLines text2) ≠ -1 := by rw [hF2]; omega
  have h3 : ¬(endTokenBeforeCursorIndexOf sel2 e (modelOfLines text2) >
      startTokenIndexOf sel2 s (modelOfLines text2) + s.length - 1) := by
    rw [hF1]; exact not_lt.mpr hF3
  have hplan : (createOperationsForBlockComment sel2 s e (modelOfLines text2)).1 =
      createRemoveBlockCommentOperations
        ⟨(i : Int) + 1, (c1 : Int) + 1 + ((s ++ [' ']).length : Int),
         (j : Int) + 1, (((c2 + 1 : Nat) : Int) - 1) + 1⟩
        (s ++ [' ']) (' ' :: e) := by
    rw [createOps_remove_of_commented sel2 s e (modelOfLines text2) h1 h2 h3,
      hadjS, hadjE, hadjEI, hF1, hsl, hel]
  have hrne : (⟨(i : Int) + 1, (c1 : Int) + 1 + ((s ++ [' ']).length : Int),
      (j : Int) + 1, (((c2 + 1 : Nat) : Int) - 1) + 1⟩ : Range).isEmpty = false := by
    have hb : ((i : Int) + 1 == (j : Int) + 1) = false := beq_eq_false_iff_ne.mpr (by omega)
    simp [Range.isEmpty, hb]
  have hremops : createRemoveBlockCommentOperations
      ⟨(i : Int) + 1, (c1 : Int) + 1 + ((s ++ [' ']).length : Int),
       (j : Int) + 1, (((c2 + 1 : Nat) : Int) - 1) + 1⟩
      (s ++ [' ']) (' ' :: e) =
      [⟨⟨(i : Int) + 1,
          ((c1 : Int) + 1 + ((s ++ [' ']).length : Int)) - ((s ++ [' ']).length : Int),
          (i : Int) + 1, (c1 : Int) + 1 + ((s ++ [' ']).length : Int)⟩, []⟩,
       ⟨⟨(j : Int) + 1, (((c2 + 1 : Nat) : Int) - 1) + 1,
          (j : Int) + 1,
          ((((c2 + 1 : Nat) : Int) - 1) + 1) + ((' ' :: e).length : Int)⟩, []⟩] := by
    unfold createRemoveBlockCommentOperations
    rw [hrne]
    rfl
  rw [hplan, hremops, applyOps_pair, applyOpToText_eval, applyOpToText_eval]
  -- cancel the end-token deletion on line j
  have hcolB : (((c2 + 1 : Nat) : Int) - 1) + 1 =
      ((((lines.getD j []).take c2).length : Nat) : Int) + 1 := by
    rw [hlenJ2]; push_cast; ring
  rw [hlineJ, hcolB, spliceLine_cancel, List.take_append_drop]
  -- cancel the start-token deletion on line i
  rw [getD_set_ne text2 j i _ [] (by omega), hlineI]
  have hcolA1 : ((c1 : Int) + 1 + ((s ++ [' ']).length : Int)) -
      ((s ++ [' ']).length : Int) =
      ((((lines.getD i []).take c1).length : Nat) : Int) + 1 := by
    rw [hlenI1]; ring
  have hcolA2 : (c1 : Int) + 1 + ((s ++ [' ']).length : Int) =
      ((((lines.getD i []).take c1).length : Nat) : Int) + 1 + ((s ++ [' ']).length : Int) := by
    rw [hlenI1]
  rw [hcolA1, hcolA2, spliceLine_cancel, List.take_append_drop]
  -- undo the two `set`s
  rw [ht2', List.set_comm _ _ _ (by omega : i ≠ j), List.set_set, List.set_set,
    set_getD_self lines j _ hj]
  exact set_getD_self lines i _ hi

/-- **C1, amended.**  For every valid non-collapsed selection
(`1 ≤ start ≤ end`, within the text) and non-empty token pair, applying
the add-comment plan and then the remove-comment plan produced by the
classifier on the result (with the whitespace adjustment) restores the
original text exactly, *provided the locator on the edited text locates
exactly the inserted tokens*: the start-line search finds the inserted
startToken, the end-line search finds the inserted endToken, and the
start-line endToken check reports no occurrence strictly after the
located startToken.  (The unamended claim fails when a token occurrence
inside the selected content or the surrounding line text wins one of
these searches — see the counterexample.) -/
theorem claim_C1_roundTrip_amended
    (lines : List (List Char)) (i j c1 c2 : Nat) (s e : List Char)
    (hs : s ≠ []) (he : e ≠ [])
    (hij : i ≤ j) (hj : j < lines.length)
    (hc1 : c1 ≤ (lines.getD i []).length) (hc2 : c2 ≤ (lines.getD j []).length)
    (hne : i = j → c1 < c2)
    (text2 : List (List Char))
    (ht2 : text2 = applyOps lines (createAddBlockCommentOperations
      ⟨(i : Int) + 1, (c1 : Int) + 1, (j : Int) + 1, (c2 : Int) + 1⟩ s e))
    (sel2 : Range)
    (hsl : sel2.startLineNumber = (i : Int) + 1)
    (hel : sel2.endLineNumber = (j : Int) + 1)
    (hF1 : startTokenIndexOf sel2 s (modelOfLines text2) = (c1 : Int))
    (hF2 : endTokenIndexOf sel2 e (modelOfLines text2) =
      ((if i = j then c2 + s.length + 2 else c2 + 1 : Nat) : Int))
    (hF3 : endTokenBeforeCursorIndexOf sel2 e (modelOfLines text2) ≤
      (c1 : Int) + s.length - 1) :
    applyOps text2 ((createOperationsForBlockComment sel2 s e (modelOfLines text2)).1) =
      lines := by
  rcases eq_or_lt_of_le hij with heq | hlt
  · subst heq
    rw [if_pos rfl] at hF2
    exact removePlan_restores_single_line lines i c1 c2 s e hj (hne rfl) hc2 text2 ht2
      sel2 hsl hel hF1 hF2 hF3
  · rw [if_neg (by omega)] at hF2
    exact removePlan_restores_multi_line lines i j c1 c2 s e hlt hj hc1 hc2 text2 ht2
      sel2 hsl hel hF1 hF2 hF3

/-- Witness for the amended C1: toggling `"world"` inside
`"hello world"` on and back off restores the original line. -/
theorem claim_C1_roundTrip_amended_witness :
    applyOps ["hello /* world */".toList]
        ((createOperationsForBlockComment ⟨1, 10, 1, 15⟩ ['/', '*'] ['*', '/']
          (modelOfLines ["hello /* world */".toList])).1) =
      ["hello world".toList] :=
  claim_C1_roundTrip_amended ["hello world".toList] 0 0 6 11 ['/', '*'] ['*', '/']
    (by decide) (by decide) (by decide) (by decide) (by decide) (by decide) (by decide)
    ["hello /* world */".toList] (by decide) ⟨1, 10, 1, 15⟩ (by decide) (by decide)
    (by decide) (by decide) (by decide)

end BlockComment
